import Mathlib

/-!
# Verification of the session/token store (`Examples/session_store.py`)

Shallow embedding of the session store subsystem: the session table, token
issue/validate, the sweeper tick, and the persistence round-trip, together
with the telemetry state they touch.  Timestamps are modelled as `Int`
(seconds); the external HMAC signer is a parameter `sign : String → String →
String` (message, secret ↦ hex signature), and `constant_time_equal` is
string equality, matching `hmac.compare_digest`'s result.  The session table
(a Python dict) is an association list with unique keys; theorems that need
the dict's key-uniqueness take it as a `Nodup` hypothesis.
-/

namespace SessionStore

/-- One session record, as stored in `_SESSIONS` by `create_session`. -/
structure Session where
  user_id : String
  created_at : Int
  expires_at : Int
deriving DecidableEq, Repr

/-- A telemetry event, as recorded by `telemetry.record_event(name, meta)`. -/
structure Event where
  name : String
  meta : List (String × String)
deriving DecidableEq, Repr

/-- The session table: `_SESSIONS`, a dict from session id to record. -/
abbrev Table := List (String × Session)

/-- The combined mutable module state: the session table and sweeper handle
from `session_store.py`, plus the telemetry module's event list and
counters. `sweeper` holds the interval of the launched sweeper thread
(`_SWEEPER`), `tasks_started` counts how many threads were ever started. -/
structure StoreState where
  sessions : Table
  events : List Event
  counters : List (String × Nat)
  sweeper : Option Int
  tasks_started : Nat
deriving DecidableEq, Repr

/-- Dict lookup `_SESSIONS.get(k)`. -/
def getEntry : Table → String → Option Session
  | [], _ => none
  | (k', v) :: rest, k => if k' = k then some v else getEntry rest k

/-- Dict assignment `_SESSIONS[k] = v`: replace in place, or append. -/
def insertEntry (k : String) (v : Session) : Table → Table
  | [] => [(k, v)]
  | (k', v') :: rest =>
      if k' = k then (k, v) :: rest else (k', v') :: insertEntry k v rest

/-- Dict removal `_SESSIONS.pop(k, None)`. -/
def eraseEntry (k : String) (t : Table) : Table :=
  t.filter (fun p => decide (p.1 ≠ k))

/-- The keys of a table. -/
def keys (t : Table) : List String := t.map Prod.fst

/-- Drop every entry whose key is in `ks` (the net effect of popping each
key of `ks` in turn). -/
def removeKeys (ks : List String) (t : Table) : Table :=
  t.filter (fun p => decide (p.1 ∉ ks))

/-- `telemetry.record_event`: append an event. -/
def record_event (name : String) (meta : List (String × String))
    (st : StoreState) : StoreState :=
  { st with events := st.events ++ [⟨name, meta⟩] }

/-- `telemetry.inc`: create-if-missing then increment a named counter. -/
def bumpCounter (c : String) : List (String × Nat) → List (String × Nat)
  | [] => [(c, 1)]
  | (c', n) :: rest =>
      if c' = c then (c, n + 1) :: rest else (c', n) :: bumpCounter c rest

/-- `telemetry.inc` lifted to the store state. -/
def inc (c : String) (st : StoreState) : StoreState :=
  { st with counters := bumpCounter c st.counters }

/-- The type of the external signer `crypto_utils.sign`:
message and secret to hex signature. -/
abbrev SignFn := String → String → String

/-- `crypto_utils.constant_time_equal`: `hmac.compare_digest` returns
equality of the two strings (its timing behaviour is not modelled). -/
def constant_time_equal (a b : String) : Bool := a == b

/-- `"." in token` for a single-character needle: char containment. -/
def hasDot (s : String) : Bool := s.data.contains '.'

/-- Core of `token.split(".", 1)`: split a character list at the first
`'.'`. When no dot occurs the input is returned whole (the caller guards
with `hasDot` first, as the Python code does with `"." not in`). -/
def splitDotAux : List Char → List Char × List Char
  | [] => ([], [])
  | c :: rest =>
      if c = '.' then ([], rest)
      else
        let p := splitDotAux rest
        (c :: p.1, p.2)

/-- `token_with_sig.split(".", 1)`: the part before the first dot and
everything after it. -/
def splitFirstDot (s : String) : String × String :=
  let p := splitDotAux s.data
  (⟨p.1⟩, ⟨p.2⟩)

/-- `create_session(session_id, user_id, secret, ttl_seconds)` at current
time `now`: sign the id, insert/overwrite the record, bump the write
counter, record the creation event, return `"<session_id>.<signature>"`. -/
def create_session (sign : SignFn) (session_id user_id secret : String)
    (ttl_seconds now : Int) (st : StoreState) : String × StoreState :=
  let token := session_id
  let sig := sign token secret
  let st₁ := { st with
    sessions := insertEntry session_id
      ⟨user_id, now, now + ttl_seconds⟩ st.sessions }
  let st₂ := record_event "session.created"
    [("sid", session_id), ("user", user_id)] (inc "writes" st₁)
  (token ++ "." ++ sig, st₂)

/-- The checks of `validate_token` after the format check, on the split
`token`/`sig` parts: signature check, table lookup, expiry check. -/
def checkParsed (sign : SignFn) (token sig secret : String) (now : Int)
    (st : StoreState) : Option String × StoreState :=
  let expected := sign token secret
  if constant_time_equal sig expected = false then
    (none, record_event "session.invalid_sig" [("sid", token)]
      (inc "fails" st))
  else
    match getEntry st.sessions token with
    | none => (none, inc "fails" st)
    | some s =>
        if s.expires_at ≤ now then
          (none, record_event "session.expired_seen" [("sid", token)]
            (inc "fails" st))
        else
          (some s.user_id, inc "reads" st)

/-- `validate_token(token_with_sig, secret)` at current time `now`: format
check, then signature check, table lookup and expiry check; returns the
user id on success and `none` on any failure, with the updated state. -/
def validate_token (sign : SignFn) (token_with_sig secret : String)
    (now : Int) (st : StoreState) : Option String × StoreState :=
  if hasDot token_with_sig = false then
    (none, inc "fails" st)
  else
    let p := splitFirstDot token_with_sig
    checkParsed sign p.1 p.2 secret now st

/-- `start_sweeper(interval_seconds)`: no-op if `_SWEEPER` is already set,
otherwise launch one background thread and remember it. -/
def start_sweeper (interval_seconds : Int) (st : StoreState) : StoreState :=
  if st.sweeper.isSome then st
  else { st with sweeper := some interval_seconds,
                 tasks_started := st.tasks_started + 1 }

/-- One iteration of the sweeper loop at time `now`: collect the ids of
entries with `expires_at <= now`, then pop each and record one
`session.expired` event for it. -/
def sweepTick (now : Int) (st : StoreState) : StoreState :=
  let expired :=
    ((st.sessions.filter (fun p => decide (p.2.expires_at ≤ now))).map
      Prod.fst)
  expired.foldl
    (fun s sid =>
      record_event "session.expired" [("sid", sid)]
        { s with sessions := eraseEntry sid s.sessions })
    st

/-- A run of sweeper iterations, at the given sequence of tick times. -/
def applySweeps (times : List Int) (st : StoreState) : StoreState :=
  times.foldl (fun s τ => sweepTick τ s) st

/-- A JSON value, as produced by `json.dump` / consumed by `json.load`.
Numbers are the integer timestamps this store writes. -/
inductive Json where
  | str : String → Json
  | num : Int → Json
  | obj : List (String × Json) → Json

/-- The filesystem: path to file contents (a parsed JSON document; the
byte-level encode/parse pair of the `json` standard library is external and
assumed faithful). -/
abbrev Fs := String → Option Json

/-- `json.dump` of one session record (the dict stored in `_SESSIONS`). -/
def encodeSession (s : Session) : Json :=
  .obj [("user_id", .str s.user_id),
        ("created_at", .num s.created_at),
        ("expires_at", .num s.expires_at)]

/-- Read back one session record from its JSON shape. -/
def decodeSession : Json → Option Session
  | .obj [("user_id", .str u), ("created_at", .num c),
          ("expires_at", .num e)] => some ⟨u, c, e⟩
  | _ => none

/-- `json.dump(_SESSIONS)`: the table serialized keyed by session id. -/
def encodeSessions (t : Table) : Json :=
  .obj (t.map (fun p => (p.1, encodeSession p.2)))

/-- Read back a list of table entries. -/
def decodeEntries : List (String × Json) → Option Table
  | [] => some []
  | (k, j) :: rest =>
      match decodeSession j, decodeEntries rest with
      | some s, some t => some ((k, s) :: t)
      | _, _ => none

/-- `json.load` of a persisted table. -/
def decodeSessions : Json → Option Table
  | .obj l => decodeEntries l
  | _ => none

/-- `save_to_disk(path)`: snapshot the table under lock, serialize the copy
to `path` (overwriting), record a `session.saved` event. -/
def save_to_disk (path : String) (st : StoreState) (fs : Fs) :
    StoreState × Fs :=
  let data := st.sessions
  (record_event "session.saved" [("path", path)] st,
   fun q => if q = path then some (encodeSessions data) else fs q)

/-- `load_from_disk(path)`: if the path is missing, record
`session.load_missing` and return unchanged; otherwise parse the file
(a parse failure propagates as an error, table untouched), replace the
table wholesale, record `session.loaded`. -/
def load_from_disk (path : String) (st : StoreState) (fs : Fs) :
    Except String StoreState :=
  match fs path with
  | none => .ok (record_event "session.load_missing" [("path", path)] st)
  | some j =>
      match decodeSessions j with
      | none => .error "invalid JSON"
      | some data =>
          .ok (record_event "session.loaded" [("path", path)]
            { st with sessions := data })

/-- A concrete deterministic stand-in for the external HMAC signer, used to
instantiate the universally quantified theorems at concrete inputs. -/
def signModel : SignFn := fun msg _secret => "x" ++ msg

/-! ## Lemmas about the token format -/

lemma hasDot_iff (s : String) : hasDot s = true ↔ '.' ∈ s.data := by
  simp [hasDot, List.elem_iff]

lemma hasDot_append_dot (a b : String) :
    hasDot (a ++ "." ++ b) = true := by
  rw [hasDot_iff]
  simp [String.data_append]

lemma splitDotAux_append (a b : List Char) (h : '.' ∉ a) :
    splitDotAux (a ++ '.' :: b) = (a, b) := by
  induction a with
  | nil => simp [splitDotAux]
  | cons c rest ih =>
      have hc : ¬ c = '.' := fun hc => h (by simp [hc])
      have hrest : '.' ∉ rest := fun hm => h (by simp [hm])
      simp [splitDotAux, hc, ih hrest]

lemma splitFirstDot_append (a b : String) (h : hasDot a = false) :
    splitFirstDot (a ++ "." ++ b) = (a, b) := by
  have hm : '.' ∉ a.data := by
    intro hmem
    rw [← hasDot_iff] at hmem
    simp [h] at hmem
  obtain ⟨la⟩ := a
  obtain ⟨lb⟩ := b
  simp only [splitFirstDot, String.data_append] at *
  rw [show la ++ ['.'] ++ lb = la ++ '.' :: lb by simp,
    splitDotAux_append la lb hm]

lemma splitDotAux_reconstruct (l : List Char) (h : '.' ∈ l) :
    (splitDotAux l).1 ++ '.' :: (splitDotAux l).2 = l
    ∧ '.' ∉ (splitDotAux l).1 := by
  induction l with
  | nil => simp at h
  | cons c rest ih =>
      by_cases hc : c = '.'
      · subst hc
        simp [splitDotAux]
      · have hrest : '.' ∈ rest := by
          rcases List.mem_cons.mp h with h' | h'
          · exact absurd h'.symm hc
          · exact h'
        have := ih hrest
        simp only [splitDotAux, if_neg hc]
        refine ⟨?_, ?_⟩
        · simpa using this.1
        · simpa [Ne.symm hc] using fun hmem => this.2 hmem

lemma splitFirstDot_reconstruct (t : String) (h : hasDot t = true) :
    (splitFirstDot t).1 ++ "." ++ (splitFirstDot t).2 = t
    ∧ hasDot (splitFirstDot t).1 = false := by
  obtain ⟨l⟩ := t
  rw [hasDot_iff] at h
  have hrec := splitDotAux_reconstruct l h
  constructor
  · apply String.ext
    simpa [splitFirstDot, String.data_append] using hrec.1
  · rw [← Bool.not_eq_true, hasDot_iff]
    exact hrec.2

/-! ## Lemmas about the session table -/

lemma getEntry_insertEntry_self (k : String) (v : Session) (t : Table) :
    getEntry (insertEntry k v t) k = some v := by
  induction t with
  | nil => simp [insertEntry, getEntry]
  | cons hd rest ih =>
      by_cases h : hd.1 = k <;>
        simp [insertEntry, getEntry, h, ih]

lemma getEntry_insertEntry_ne (k k' : String) (v : Session) (t : Table)
    (h : k' ≠ k) : getEntry (insertEntry k v t) k' = getEntry t k' := by
  induction t with
  | nil => simp [insertEntry, getEntry, Ne.symm h]
  | cons hd rest ih =>
      obtain ⟨k₁, v₁⟩ := hd
      by_cases hh : k₁ = k
      · subst hh
        simp [insertEntry, getEntry, Ne.symm h]
      · simp [insertEntry, getEntry, hh, ih]

lemma getEntry_mem (t : Table) (k : String) (r : Session)
    (h : getEntry t k = some r) : (k, r) ∈ t := by
  induction t with
  | nil => simp [getEntry] at h
  | cons hd rest ih =>
      by_cases hh : hd.1 = k
      · rw [getEntry, if_pos hh] at h
        obtain ⟨k₁, v₁⟩ := hd
        cases h
        simp only at hh
        subst hh
        exact List.mem_cons_self _ _
      · rw [getEntry, if_neg hh] at h
        exact List.mem_cons_of_mem _ (ih h)

lemma mem_keys_insertEntry (k x : String) (v : Session) (t : Table)
    (h : x ∈ keys (insertEntry k v t)) : x = k ∨ x ∈ keys t := by
  induction t with
  | nil => simpa [insertEntry, keys] using h
  | cons hd rest ih =>
      by_cases hh : hd.1 = k
      · simp only [insertEntry, if_pos hh, keys, List.map_cons,
          List.mem_cons] at h ⊢
        tauto
      · simp only [insertEntry, if_neg hh, keys, List.map_cons,
          List.mem_cons] at h ⊢
        rcases h with h | h
        · tauto
        · rcases ih h with h' | h' <;> tauto

lemma keys_insertEntry_nodup (k : String) (v : Session) (t : Table)
    (h : (keys t).Nodup) : (keys (insertEntry k v t)).Nodup := by
  induction t with
  | nil => simp [insertEntry, keys]
  | cons hd rest ih =>
      simp only [keys, List.map_cons, List.nodup_cons] at h
      by_cases hh : hd.1 = k
      · subst hh
        simpa [insertEntry, keys, List.nodup_cons] using h
      · simp only [insertEntry, if_neg hh, keys, List.map_cons,
          List.nodup_cons]
        refine ⟨fun hmem => ?_, ih h.2⟩
        rcases mem_keys_insertEntry k hd.1 v rest hmem with h' | h'
        · exact hh h'
        · exact h.1 h'

lemma pair_eq_of_keys_nodup (t : Table) (p q : String × Session)
    (hnd : (keys t).Nodup) (hp : p ∈ t) (hq : q ∈ t) (h : p.1 = q.1) :
    p = q := by
  induction t with
  | nil => simp at hp
  | cons hd rest ih =>
      simp only [keys, List.map_cons, List.nodup_cons] at hnd
      rcases List.mem_cons.mp hp with hp' | hp' <;>
        rcases List.mem_cons.mp hq with hq' | hq'
      · rw [hp', hq']
      · exfalso
        subst hp'
        exact hnd.1 (h ▸ List.mem_map_of_mem Prod.fst hq')
      · exfalso
        subst hq'
        exact hnd.1 (h ▸ List.mem_map_of_mem Prod.fst hp')
      · exact ih hnd.2 hp' hq'

lemma getEntry_filter_key (f : String → Bool) (t : Table) (k : String) :
    getEntry (t.filter (fun p => f p.1)) k
      = if f k then getEntry t k else none := by
  induction t with
  | nil => simp [getEntry]
  | cons hd rest ih =>
      by_cases hh : hd.1 = k
      · subst hh
        by_cases hf : f hd.1 <;> simp [getEntry, hf, ih]
      · by_cases hf : f hd.1 <;> simp [getEntry, hf, hh, ih]

lemma getEntry_removeKeys (ks : List String) (t : Table) (k : String) :
    getEntry (removeKeys ks t) k
      = if k ∈ ks then none else getEntry t k := by
  have h := getEntry_filter_key (fun x => decide (x ∉ ks)) t k
  by_cases hk : k ∈ ks
  · simpa [removeKeys, hk] using h
  · simpa [removeKeys, hk] using h

/-! ## Lemmas about the sweeper -/

lemma removeKeys_nil (t : Table) : removeKeys [] t = t := by
  simp [removeKeys]

lemma removeKeys_cons (k : String) (ks : List String) (t : Table) :
    removeKeys (k :: ks) t = removeKeys ks (eraseEntry k t) := by
  simp only [removeKeys, eraseEntry, List.filter_filter]
  apply List.filter_congr
  intro p _
  by_cases h1 : p.1 = k <;> by_cases h2 : p.1 ∈ ks <;> simp [h1, h2]

lemma sweepFold_spec (ks : List String) (s : StoreState) :
    ks.foldl (fun s sid => record_event "session.expired" [("sid", sid)]
      { s with sessions := eraseEntry sid s.sessions }) s
    = { s with sessions := removeKeys ks s.sessions,
               events := s.events ++ ks.map
                 (fun sid => ⟨"session.expired", [("sid", sid)]⟩) } := by
  induction ks generalizing s with
  | nil => simp [removeKeys_nil]
  | cons k ks ih =>
      rw [List.foldl_cons, ih]
      simp [record_event, removeKeys_cons]

lemma sweepTick_eq (now : Int) (st : StoreState) :
    sweepTick now st = { st with
      sessions := removeKeys (keys (st.sessions.filter
        (fun p => decide (p.2.expires_at ≤ now)))) st.sessions,
      events := st.events ++ (keys (st.sessions.filter
        (fun p => decide (p.2.expires_at ≤ now)))).map
          (fun sid => ⟨"session.expired", [("sid", sid)]⟩) } :=
  sweepFold_spec _ st

lemma mem_keys (t : Table) (x : String) :
    x ∈ keys t ↔ ∃ p ∈ t, p.1 = x := by
  simp [keys, List.mem_map]

lemma removeKeys_filter (t : Table) (f : String × Session → Bool)
    (hnd : (keys t).Nodup) :
    removeKeys (keys (t.filter f)) t = t.filter (fun p => ! f p) := by
  simp only [removeKeys]
  apply List.filter_congr
  intro p hp
  by_cases hf : f p = true
  · have h₁ : p ∈ t.filter f := List.mem_filter.mpr ⟨hp, hf⟩
    have h₂ : p.1 ∈ keys (t.filter f) := List.mem_map_of_mem Prod.fst h₁
    simp [h₂, hf]
  · have hnot : p.1 ∉ keys (t.filter f) := by
      intro hmem
      rw [mem_keys] at hmem
      obtain ⟨q, hq, hq1⟩ := hmem
      have hqt : q ∈ t := (List.mem_filter.mp hq).1
      have hqf : f q = true := (List.mem_filter.mp hq).2
      have hpq : p = q :=
        pair_eq_of_keys_nodup t p q hnd hp hqt hq1.symm
      rw [hpq] at hf
      exact hf hqf
    simp [hnot, hf]

lemma getEntry_sweepTick (now : Int) (st : StoreState) (k : String) :
    getEntry (sweepTick now st).sessions k
      = if k ∈ keys (st.sessions.filter
            (fun p => decide (p.2.expires_at ≤ now)))
        then none else getEntry st.sessions k := by
  rw [sweepTick_eq]
  exact getEntry_removeKeys _ _ _

lemma getEntry_sweepTick_live (now : Int) (st : StoreState) (k : String)
    (r : Session) (hnd : (keys st.sessions).Nodup)
    (hr : getEntry st.sessions k = some r)
    (hlive : ¬ r.expires_at ≤ now) :
    getEntry (sweepTick now st).sessions k = some r := by
  have hcond : k ∉ keys (st.sessions.filter
      (fun p => decide (p.2.expires_at ≤ now))) := by
    intro hmem
    rw [mem_keys] at hmem
    obtain ⟨q, hq, hq1⟩ := hmem
    have hqt : q ∈ st.sessions := (List.mem_filter.mp hq).1
    have hqf := (List.mem_filter.mp hq).2
    have hpq : (k, r) = q :=
      pair_eq_of_keys_nodup st.sessions (k, r) q hnd
        (getEntry_mem _ _ _ hr) hqt (by simpa using hq1.symm)
    rw [← hpq] at hqf
    simp only [decide_eq_true_eq] at hqf
    exact hlive hqf
  rw [getEntry_sweepTick, if_neg hcond, hr]

lemma keys_filter_nodup (t : Table) (f : String × Session → Bool)
    (hnd : (keys t).Nodup) : (keys (t.filter f)).Nodup :=
  List.Nodup.sublist (List.Sublist.map Prod.fst (List.filter_sublist t)) hnd

lemma keys_sweepTick_nodup (now : Int) (st : StoreState)
    (hnd : (keys st.sessions).Nodup) :
    (keys (sweepTick now st).sessions).Nodup := by
  rw [sweepTick_eq]
  simp only [removeKeys]
  exact keys_filter_nodup _ _ hnd

lemma getEntry_applySweeps_live (ts : List Int) (st : StoreState)
    (k : String) (r : Session) (hnd : (keys st.sessions).Nodup)
    (hr : getEntry st.sessions k = some r)
    (hts : ∀ τ ∈ ts, ¬ r.expires_at ≤ τ) :
    getEntry (applySweeps ts st).sessions k = some r := by
  induction ts generalizing st with
  | nil => exact hr
  | cons τ ts ih =>
      exact ih (sweepTick τ st) (keys_sweepTick_nodup τ st hnd)
        (getEntry_sweepTick_live τ st k r hnd hr
          (hts τ (List.mem_cons_self _ _)))
        (fun τ' hτ' => hts τ' (List.mem_cons_of_mem _ hτ'))

lemma getEntry_applySweeps_cases (ts : List Int) (st : StoreState)
    (k : String) :
    getEntry (applySweeps ts st).sessions k = none
    ∨ getEntry (applySweeps ts st).sessions k = getEntry st.sessions k := by
  induction ts generalizing st with
  | nil => right; rfl
  | cons τ ts ih =>
      rcases ih (sweepTick τ st) with h | h
      · left; exact h
      · rw [getEntry_sweepTick] at h
        by_cases hc : k ∈ keys (st.sessions.filter
            (fun p => decide (p.2.expires_at ≤ τ)))
        · rw [if_pos hc] at h
          left; exact h
        · rw [if_neg hc] at h
          right; exact h

/-! ## Lemmas about validation and persistence -/

lemma validate_token_signed (sign : SignFn) (sid secret : String)
    (now : Int) (st : StoreState) (hdot : hasDot sid = false) :
    validate_token sign (sid ++ "." ++ sign sid secret) secret now st
      = match getEntry st.sessions sid with
        | none => (none, inc "fails" st)
        | some s =>
            if s.expires_at ≤ now then
              (none, record_event "session.expired_seen" [("sid", sid)]
                (inc "fails" st))
            else
              (some s.user_id, inc "reads" st) := by
  rw [validate_token, if_neg (by simp [hasDot_append_dot])]
  simp only [splitFirstDot_append _ _ hdot, checkParsed,
    constant_time_equal, beq_self_eq_true, Bool.true_eq_false,
    if_false, if_neg]

lemma decodeSession_encodeSession (s : Session) :
    decodeSession (encodeSession s) = some s := by
  obtain ⟨u, c, e⟩ := s
  rfl

lemma decodeSessions_encodeSessions (t : Table) :
    decodeSessions (encodeSessions t) = some t := by
  simp only [decodeSessions, encodeSessions]
  induction t with
  | nil => rfl
  | cons hd rest ih =>
      simp only [List.map_cons, decodeEntries,
        decodeSession_encodeSession, ih]

lemma start_sweeper_of_isSome (i : Int) (st : StoreState)
    (h : st.sweeper.isSome) : start_sweeper i st = st := by
  rw [start_sweeper, if_pos h]

lemma foldl_start_sweeper_of_isSome (l : List Int) (st : StoreState)
    (h : st.sweeper.isSome) :
    l.foldl (fun s i => start_sweeper i s) st = st := by
  induction l with
  | nil => rfl
  | cons i l ih =>
      rw [List.foldl_cons, start_sweeper_of_isSome i st h]
      exact ih

/-! ## C1: create/validate round-trip -/

/-- C1 (amended): for every session created via `create_session` with a TTL
strictly greater than zero and a session id that does not contain the token
delimiter `'.'`, validating the returned token immediately (at the creation
time, before expiry) with the same secret returns the original user id. -/
theorem create_validate_roundtrip (sign : SignFn) (sid user secret : String)
    (ttl now : Int) (st : StoreState)
    (hdot : hasDot sid = false) (httl : 0 < ttl) :
    (validate_token sign
       (create_session sign sid user secret ttl now st).1 secret now
       (create_session sign sid user secret ttl now st).2).1
      = some user := by
  have htok : (create_session sign sid user secret ttl now st).1
      = sid ++ "." ++ sign sid secret := rfl
  have hmem : getEntry
      (create_session sign sid user secret ttl now st).2.sessions sid
      = some ⟨user, now, now + ttl⟩ := getEntry_insertEntry_self _ _ _
  have hlt : ¬ ((⟨user, now, now + ttl⟩ : Session).expires_at ≤ now) := by
    show ¬ (now + ttl ≤ now)
    omega
  rw [htok, validate_token_signed sign sid secret now _ hdot]
  simp only [hmem, hlt, if_false]

/-- C1 (witness): the concrete session "s1"/"u1" with TTL 5, created at
time 100 and validated at time 100, round-trips to "u1". -/
theorem create_validate_roundtrip_witness :
    hasDot "s1" = false ∧ (0 : Int) < 5 ∧
    (validate_token signModel
       (create_session signModel "s1" "u1" "k" 5 100
          ⟨[], [], [], none, 0⟩).1 "k" 100
       (create_session signModel "s1" "u1" "k" 5 100
          ⟨[], [], [], none, 0⟩).2).1
      = some "u1" :=
  ⟨by decide, by decide,
   create_validate_roundtrip signModel "s1" "u1" "k" 5 100
     ⟨[], [], [], none, 0⟩ (by decide) (by decide)⟩

/-- C1 (counterexample): for the session id "a.b", which contains the
delimiter, a session created with TTL 5 > 0 and validated immediately with
the same secret does not return the original user id: the validator splits
the token at the first dot, recomputes the signature of "a" and compares it
against "b.…", so the signature check fails. -/
theorem create_validate_roundtrip_dotted_fails :
    (0 : Int) < 5 ∧
    (validate_token signModel
       (create_session signModel "a.b" "u1" "k" 5 0
          ⟨[], [], [], none, 0⟩).1 "k" 0
       (create_session signModel "a.b" "u1" "k" 5 0
          ⟨[], [], [], none, 0⟩).2).1
      ≠ some "u1" := by decide

/-! ## C6: create_session contract -/

/-- C6: `create_session` succeeds on every input (any `ttl_seconds` is
accepted; zero or negative yields a record already expired at creation
time), inserts or silently overwrites the record for the session id,
leaves every other entry unchanged, and returns exactly
`session_id ++ "." ++ sign session_id secret`. -/
theorem create_session_spec (sign : SignFn) (sid user secret : String)
    (ttl now : Int) (st : StoreState) :
    (create_session sign sid user secret ttl now st).1
        = sid ++ "." ++ sign sid secret
    ∧ getEntry (create_session sign sid user secret ttl now st).2.sessions
        sid = some ⟨user, now, now + ttl⟩
    ∧ (∀ k, k ≠ sid →
        getEntry (create_session sign sid user secret ttl now st).2.sessions
          k = getEntry st.sessions k)
    ∧ (ttl ≤ 0 → ∀ s,
        getEntry (create_session sign sid user secret ttl now st).2.sessions
          sid = some s → s.expires_at ≤ now) := by
  have hmem : getEntry
      (create_session sign sid user secret ttl now st).2.sessions sid
      = some ⟨user, now, now + ttl⟩ := getEntry_insertEntry_self _ _ _
  refine ⟨rfl, hmem,
    fun k hk => getEntry_insertEntry_ne _ _ _ _ hk,
    fun httl s hs => ?_⟩
  rw [hmem] at hs
  obtain rfl : (⟨user, now, now + ttl⟩ : Session) = s := by
    injection hs
  show now + ttl ≤ now
  omega

/-- C6 (witness): creating "s2" with TTL -1 at time 50 over a table holding
"other" returns the signed token, overwrites nothing else, and the stored
record is already expired. -/
theorem create_session_spec_witness :
    getEntry (create_session signModel "s2" "u2" "k" (-1) 50
        ⟨[("other", ⟨"v", 0, 99⟩)], [], [], none, 0⟩).2.sessions "other"
      = getEntry
          (⟨[("other", ⟨"v", 0, 99⟩)], [], [], none, 0⟩ : StoreState).sessions
          "other"
    ∧ (⟨"u2", 50, 49⟩ : Session).expires_at ≤ 50 :=
  ⟨(create_session_spec signModel "s2" "u2" "k" (-1) 50
      ⟨[("other", ⟨"v", 0, 99⟩)], [], [], none, 0⟩).2.2.1 "other" (by decide),
   (create_session_spec signModel "s2" "u2" "k" (-1) 50
      ⟨[("other", ⟨"v", 0, 99⟩)], [], [], none, 0⟩).2.2.2 (by decide)
     ⟨"u2", 50, 49⟩ (by decide)⟩

/-! ## C7: validation never mutates the table -/

/-- C7: `validate_token` never mutates the session table: for every token,
secret, time and starting state — so for every outcome: invalid format,
bad signature, unknown session, expired session, or success — the table
after the call equals the table before. -/
theorem validate_token_preserves_table (sign : SignFn)
    (tok secret : String) (now : Int) (st : StoreState) :
    ((validate_token sign tok secret now st).2).sessions = st.sessions := by
  by_cases h : hasDot tok = false
  · rw [validate_token, if_pos h]
    rfl
  · rw [validate_token, if_neg h]
    show ((checkParsed sign (splitFirstDot tok).1 (splitFirstDot tok).2
      secret now st).2).sessions = st.sessions
    simp only [checkParsed]
    split
    · rfl
    · split
      · rfl
      · split <;> rfl

/-! ## C10: the token is a function of session id and secret alone -/

/-- C10: the token returned by `create_session` is a deterministic function
of the session id and secret alone: two calls with the same session id and
secret return the same token whatever the user ids, TTLs, times, or prior
states. -/
theorem token_function_of_sid_secret (sign : SignFn)
    (sid secret u₁ u₂ : String) (ttl₁ ttl₂ now₁ now₂ : Int)
    (st₁ st₂ : StoreState) :
    (create_session sign sid u₁ secret ttl₁ now₁ st₁).1
      = (create_session sign sid u₂ secret ttl₂ now₂ st₂).1 := rfl

/-! ## C2: expiry monotonicity -/

/-- C2 (amended): for a session created at time `created` with TTL `ttl`
and a session id free of the delimiter `'.'`, after any sequence of sweeper
ticks at times at most `now`, validating its token at `now < created + ttl`
returns the user id, and validating at `now ≥ created + ttl` returns
invalid — in particular, at the exact instant `now = created + ttl` the
session is already invalid, whether or not the sweeper has removed it. -/
theorem validate_expiry_monotonic (sign : SignFn)
    (sid user secret : String) (ttl created now : Int)
    (sweeps : List Int) (st : StoreState)
    (hdot : hasDot sid = false)
    (hnd : (keys st.sessions).Nodup)
    (hsw : ∀ τ ∈ sweeps, τ ≤ now) :
    ((now < created + ttl →
       (validate_token sign
          (create_session sign sid user secret ttl created st).1 secret now
          (applySweeps sweeps
            (create_session sign sid user secret ttl created st).2)).1
         = some user)
     ∧ (created + ttl ≤ now →
       (validate_token sign
          (create_session sign sid user secret ttl created st).1 secret now
          (applySweeps sweeps
            (create_session sign sid user secret ttl created st).2)).1
         = none)) := by
  have htok : (create_session sign sid user secret ttl created st).1
      = sid ++ "." ++ sign sid secret := rfl
  have hmem : getEntry
      (create_session sign sid user secret ttl created st).2.sessions sid
      = some ⟨user, created, created + ttl⟩ := getEntry_insertEntry_self _ _ _
  have hnd₁ : (keys
      (create_session sign sid user secret ttl created st).2.sessions).Nodup :=
    keys_insertEntry_nodup _ _ _ hnd
  constructor
  · intro hvalid
    have hsurvive : getEntry (applySweeps sweeps
        (create_session sign sid user secret ttl created st).2).sessions sid
        = some ⟨user, created, created + ttl⟩ :=
      getEntry_applySweeps_live sweeps _ sid _ hnd₁ hmem
        (fun τ hτ => by
          have := hsw τ hτ
          show ¬ (created + ttl ≤ τ)
          omega)
    have hlt : ¬ ((⟨user, created, created + ttl⟩ : Session).expires_at
        ≤ now) := by
      show ¬ (created + ttl ≤ now)
      omega
    rw [htok, validate_token_signed sign sid secret now _ hdot]
    simp only [hsurvive, hlt, if_false]
  · intro hexp
    rw [htok, validate_token_signed sign sid secret now _ hdot]
    rcases getEntry_applySweeps_cases sweeps
        (create_session sign sid user secret ttl created st).2 sid with
      h | h
    · simp only [h]
    · rw [hmem] at h
      have hle : (⟨user, created, created + ttl⟩ : Session).expires_at
          ≤ now := by
        show created + ttl ≤ now
        omega
      simp only [h, hle, if_true]

/-- C2 (witness): the session "s9"/"u9" created at time 0 with TTL 5,
after sweeper ticks at times 1 and 2, validates to "u9" at time 3 and to
invalid at time 5. -/
theorem validate_expiry_monotonic_witness :
    hasDot "s9" = false
    ∧ (keys (⟨[], [], [], none, 0⟩ : StoreState).sessions).Nodup
    ∧ (∀ τ ∈ [(1 : Int), 2], τ ≤ 3)
    ∧ (((3 : Int) < 0 + 5 →
        (validate_token signModel
           (create_session signModel "s9" "u9" "k" 5 0
             ⟨[], [], [], none, 0⟩).1 "k" 3
           (applySweeps [1, 2]
             (create_session signModel "s9" "u9" "k" 5 0
               ⟨[], [], [], none, 0⟩).2)).1 = some "u9")
      ∧ ((0 : Int) + 5 ≤ 3 →
        (validate_token signModel
           (create_session signModel "s9" "u9" "k" 5 0
             ⟨[], [], [], none, 0⟩).1 "k" 3
           (applySweeps [1, 2]
             (create_session signModel "s9" "u9" "k" 5 0
               ⟨[], [], [], none, 0⟩).2)).1 = none)) :=
  ⟨by decide, by decide, by decide,
   validate_expiry_monotonic signModel "s9" "u9" "k" 5 0 3 [1, 2]
     ⟨[], [], [], none, 0⟩ (by decide) (by decide) (by decide)⟩

/-- C2 (counterexample): for the session "p.q"/"u2" — a session id that
contains the delimiter — created at time 0 with TTL 7 and no sweeper
activity, validating its token at time 0 < 0 + 7 does not return the user
id: the claim's success direction fails for such ids, because the token is
split at the first dot. -/
theorem validate_expiry_monotonic_dotted_fails :
    (0 : Int) < 0 + 7 ∧
    (validate_token signModel
       (create_session signModel "p.q" "u2" "k" 7 0
         ⟨[], [], [], none, 0⟩).1 "k" 0
       (applySweeps []
         (create_session signModel "p.q" "u2" "k" 7 0
           ⟨[], [], [], none, 0⟩).2)).1
      ≠ some "u2" := by decide

/-! ## C3: token format check -/

/-- C3: the format check accepts exactly the tokens containing the
delimiter: a token with no dot is rejected as invalid (only the failure
counter is bumped), a token with a dot proceeds to the remaining checks on
the parts split at the first dot, and that split decomposes the token into
a dot-free part before the first delimiter and everything after it as the
signature — so a session id containing the delimiter is still parsed. -/
theorem validate_token_format_check :
    (∀ (sign : SignFn) (tok secret : String) (now : Int) (st : StoreState),
       hasDot tok = false →
         validate_token sign tok secret now st = (none, inc "fails" st))
    ∧ (∀ (sign : SignFn) (tok secret : String) (now : Int) (st : StoreState),
       hasDot tok = true →
         validate_token sign tok secret now st
           = checkParsed sign (splitFirstDot tok).1 (splitFirstDot tok).2
               secret now st)
    ∧ (∀ tok : String, hasDot tok = true →
         (splitFirstDot tok).1 ++ "." ++ (splitFirstDot tok).2 = tok
         ∧ hasDot (splitFirstDot tok).1 = false) := by
  refine ⟨fun sign tok secret now st h => ?_,
    fun sign tok secret now st h => ?_,
    fun tok h => splitFirstDot_reconstruct tok h⟩
  · rw [validate_token, if_pos h]
  · rw [validate_token, if_neg (by simp [h])]

/-- C3 (witness): "nodot" is rejected as invalid with only the failure
counter bumped, and "a.b.c" splits at the first dot into "a" and the
signature part "b.c". -/
theorem validate_token_format_check_witness :
    validate_token signModel "nodot" "k" 0 ⟨[], [], [], none, 0⟩
      = (none, inc "fails" ⟨[], [], [], none, 0⟩)
    ∧ (splitFirstDot "a.b.c").1 ++ "." ++ (splitFirstDot "a.b.c").2
        = "a.b.c"
    ∧ hasDot (splitFirstDot "a.b.c").1 = false :=
  ⟨validate_token_format_check.1 signModel "nodot" "k" 0 _ (by decide),
   (validate_token_format_check.2.2 "a.b.c" (by decide)).1,
   (validate_token_format_check.2.2 "a.b.c" (by decide)).2⟩

/-! ## C4: loading a missing file is a no-op -/

/-- C4: `load_from_disk` on a nonexistent path returns without error,
leaves the session table (and counters and sweeper state) exactly
unchanged, and emits only a `session.load_missing` telemetry event. -/
theorem load_from_disk_missing_noop (path : String) (st : StoreState)
    (fs : Fs) (h : fs path = none) :
    ∃ st', load_from_disk path st fs = .ok st'
      ∧ st'.sessions = st.sessions
      ∧ st'.counters = st.counters
      ∧ st'.sweeper = st.sweeper
      ∧ st'.tasks_started = st.tasks_started
      ∧ st'.events = st.events
          ++ [⟨"session.load_missing", [("path", path)]⟩] := by
  refine ⟨record_event "session.load_missing" [("path", path)] st,
    ?_, rfl, rfl, rfl, rfl, rfl⟩
  simp only [load_from_disk, h]

/-- C4 (witness): loading "p" from an empty filesystem over a one-entry
table succeeds and changes nothing but the event log. -/
theorem load_from_disk_missing_noop_witness :
    ∃ st', load_from_disk "p"
        ⟨[("a", ⟨"u", 0, 5⟩)], [], [], none, 0⟩ (fun _ => none) = .ok st'
      ∧ st'.sessions
          = (⟨[("a", ⟨"u", 0, 5⟩)], [], [], none, 0⟩ : StoreState).sessions
      ∧ st'.counters
          = (⟨[("a", ⟨"u", 0, 5⟩)], [], [], none, 0⟩ : StoreState).counters
      ∧ st'.sweeper
          = (⟨[("a", ⟨"u", 0, 5⟩)], [], [], none, 0⟩ : StoreState).sweeper
      ∧ st'.tasks_started
          = (⟨[("a", ⟨"u", 0, 5⟩)], [], [], none, 0⟩ :
              StoreState).tasks_started
      ∧ st'.events
          = (⟨[("a", ⟨"u", 0, 5⟩)], [], [], none, 0⟩ : StoreState).events
            ++ [⟨"session.load_missing", [("path", "p")]⟩] :=
  load_from_disk_missing_noop "p" ⟨[("a", ⟨"u", 0, 5⟩)], [], [], none, 0⟩
    (fun _ => none) rfl

/-! ## C5: the sweeper removes exactly the expired entries -/

/-- C5: one sweeper tick at time `now` removes from the table exactly the
entries with `expires_at ≤ now` — an entry whose `expires_at` equals `now`
is removed — and appends exactly one `session.expired` event per removed
entry. -/
theorem sweep_removes_exactly_expired (now : Int) (st : StoreState)
    (hnd : (keys st.sessions).Nodup) :
    (sweepTick now st).sessions
        = st.sessions.filter (fun p => ! decide (p.2.expires_at ≤ now))
    ∧ (sweepTick now st).events
        = st.events ++ (st.sessions.filter
            (fun p => decide (p.2.expires_at ≤ now))).map
              (fun p => ⟨"session.expired", [("sid", p.1)]⟩) := by
  constructor
  · rw [sweepTick_eq]
    exact removeKeys_filter st.sessions _ hnd
  · rw [sweepTick_eq]
    simp [keys, List.map_map, Function.comp]

/-- C5 (witness): at time 10, a tick over entries expiring at 5, 20 and 10
removes exactly the first and third (the boundary entry expiring at 10 is
removed) and emits one `session.expired` event for each. -/
theorem sweep_removes_exactly_expired_witness :
    (keys (⟨[("a", ⟨"u", 0, 5⟩), ("b", ⟨"v", 0, 20⟩), ("c", ⟨"w", 0, 10⟩)],
        [], [], none, 0⟩ : StoreState).sessions).Nodup
    ∧ ((sweepTick 10 ⟨[("a", ⟨"u", 0, 5⟩), ("b", ⟨"v", 0, 20⟩),
          ("c", ⟨"w", 0, 10⟩)], [], [], none, 0⟩).sessions
        = (⟨[("a", ⟨"u", 0, 5⟩), ("b", ⟨"v", 0, 20⟩), ("c", ⟨"w", 0, 10⟩)],
            [], [], none, 0⟩ : StoreState).sessions.filter
              (fun p => ! decide (p.2.expires_at ≤ 10))
      ∧ (sweepTick 10 ⟨[("a", ⟨"u", 0, 5⟩), ("b", ⟨"v", 0, 20⟩),
          ("c", ⟨"w", 0, 10⟩)], [], [], none, 0⟩).events
        = (⟨[("a", ⟨"u", 0, 5⟩), ("b", ⟨"v", 0, 20⟩), ("c", ⟨"w", 0, 10⟩)],
            [], [], none, 0⟩ : StoreState).events
          ++ ((⟨[("a", ⟨"u", 0, 5⟩), ("b", ⟨"v", 0, 20⟩),
              ("c", ⟨"w", 0, 10⟩)], [], [], none, 0⟩ :
                StoreState).sessions.filter
              (fun p => decide (p.2.expires_at ≤ 10))).map
              (fun p => ⟨"session.expired", [("sid", p.1)]⟩)) :=
  ⟨by decide,
   sweep_removes_exactly_expired 10
     ⟨[("a", ⟨"u", 0, 5⟩), ("b", ⟨"v", 0, 20⟩), ("c", ⟨"w", 0, 10⟩)],
       [], [], none, 0⟩ (by decide)⟩

/-! ## C8: persistence round-trip -/

/-- C8: `save_to_disk` leaves the in-memory table unchanged, and a
`load_from_disk` from the same path then succeeds and reproduces the table
exactly — the same session identifiers with the same records. -/
theorem save_load_roundtrip (path : String) (st : StoreState) (fs : Fs) :
    ((save_to_disk path st fs).1).sessions = st.sessions
    ∧ ∃ st', load_from_disk path (save_to_disk path st fs).1
          (save_to_disk path st fs).2 = .ok st'
        ∧ st'.sessions = st.sessions := by
  refine ⟨rfl, record_event "session.loaded" [("path", path)]
    { (save_to_disk path st fs).1 with sessions := st.sessions }, ?_, rfl⟩
  have hfs : (save_to_disk path st fs).2 path
      = some (encodeSessions st.sessions) := by
    simp [save_to_disk]
  simp only [load_from_disk, hfs, decodeSessions_encodeSessions]

/-! ## C9: idempotent sweeper start -/

/-- C9: `start_sweeper` is idempotent: after the first call every further
call is a no-op guarded by the one-time-start flag, and any sequence of
calls launches at most one sweeper task in total. -/
theorem start_sweeper_idempotent :
    (∀ (i j : Int) (st : StoreState),
       start_sweeper j (start_sweeper i st) = start_sweeper i st)
    ∧ (∀ (l : List Int) (st : StoreState),
       (l.foldl (fun s i => start_sweeper i s) st).tasks_started
         ≤ st.tasks_started + 1) := by
  constructor
  · intro i j st
    by_cases h : st.sweeper.isSome
    · rw [start_sweeper_of_isSome i st h]
      exact start_sweeper_of_isSome j st h
    · have h1 : start_sweeper i st
          = { st with sweeper := some i,
                      tasks_started := st.tasks_started + 1 } := by
        rw [start_sweeper, if_neg h]
      rw [h1]
      exact start_sweeper_of_isSome j _ rfl
  · intro l st
    induction l generalizing st with
    | nil => simp
    | cons i l ih =>
        rw [List.foldl_cons]
        by_cases h : st.sweeper.isSome
        · rw [start_sweeper_of_isSome i st h]
          exact ih st
        · have h1 : start_sweeper i st
              = { st with sweeper := some i,
                          tasks_started := st.tasks_started + 1 } := by
            rw [start_sweeper, if_neg h]
          rw [h1, foldl_start_sweeper_of_isSome l
            { st with sweeper := some i,
                      tasks_started := st.tasks_started + 1 } rfl]

end SessionStore
